import Mathlib

/-!
A shallow embedding of `friend_trackmania_leaderboard` (`main.py`), with
theorems checking the natural-language specification against the code.

Modelling conventions:
* Python `datetime` instants are modelled as `Int` (only their total order
  and equality matter to the program).
* JSON payloads are modelled by structures mirroring the fields the code
  reads (`timestamp`, `achievement.trophyAchievementType`,
  `achievement.trophySoloRankingAchievementType`, `counts`).
* Code that can raise (`ValueError`, `RuntimeError`, `KeyError`) is
  modelled with `Option` / `Except`.
-/

/-- The `achievement` sub-object of a gain payload.  The
`trophySoloRankingAchievementType` key may be absent from the JSON, hence
`Option`. -/
structure Achievement where
  trophyAchievementType : String
  trophySoloRankingAchievementType : Option String
deriving DecidableEq, Repr

/-- One element of the `gains` array of a trophies API response. -/
structure Gain where
  timestamp : Int
  achievement : Achievement
  counts : List Int
deriving DecidableEq, Repr

/-- Embeds `_sum_trophy_points`: raises (`none`) unless the vector has
exactly 9 entries, else `sum(counts[i] * 10**i for i in range(9))`. -/
def sum_trophy_points (counts : List Int) : Option Int :=
  if counts.length ≠ 9 then none
  else some (((List.range 9).map (fun i => counts.getD i 0 * 10 ^ i)).sum)

/-- Embeds the dataclass `TrophyData`. -/
structure TrophyData where
  timestamp : Int
  achievement_type : String
  count : Int
  data : Gain
deriving DecidableEq, Repr

/-- Embeds `TrophyData.from_gain`: `none` when `_sum_trophy_points`
raises. -/
def TrophyData.from_gain (g : Gain) : Option TrophyData :=
  (sum_trophy_points g.counts).map fun c =>
    { timestamp := g.timestamp
      achievement_type := g.achievement.trophyAchievementType
      count := c
      data := g }

/-- Embeds the static method `TrophyData.categorize`; `none` models the
`KeyError` raised when a `SoloRanking` payload lacks the sub-type key. -/
def TrophyData.categorize (g : Gain) : Option String :=
  match g.achievement.trophyAchievementType with
  | "SoloRanking" =>
      g.achievement.trophySoloRankingAchievementType.map
        (fun sub => "SoloRanking - " ++ sub)
  | category => some category

/-- A length-9 count vector that is zero except for a 1 at position `i`. -/
def unit_counts (i : Nat) : List Int :=
  (List.range 9).map (fun j => if j = i then 1 else 0)

/-- A gain payload whose category is `SoloRanking` and whose sub-type key
is present. -/
def soloGainExample : Gain :=
  { timestamp := 0
    achievement :=
      { trophyAchievementType := "SoloRanking"
        trophySoloRankingAchievementType := some "COTD" }
    counts := [1, 0, 0, 0, 0, 0, 0, 0, 0] }

/-- C1 (counterexample): for a fetched `SoloRanking` gain payload, the
constructed record's `achievement_type` is the raw category label
`"SoloRanking"`, not the compound label `"SoloRanking - COTD"` that
`categorize` would build — `from_gain` never calls `categorize`. -/
theorem from_gain_solo_not_compound :
    (TrophyData.from_gain soloGainExample).map TrophyData.achievement_type
        = some "SoloRanking"
    ∧ TrophyData.categorize soloGainExample = some "SoloRanking - COTD"
    ∧ ("SoloRanking" : String) ≠ "SoloRanking - COTD" :=
  ⟨rfl, rfl, by decide⟩

/-- C1 (amended): the constructed record's `achievement_type` is always
the raw category label, for `SoloRanking` payloads as well; separately,
the (unused) `categorize` helper maps a `SoloRanking` payload to the
compound label built from the nested sub-type and any other payload to
its category label. -/
theorem from_gain_achievement_type (g : Gain) (t : TrophyData)
    (h : TrophyData.from_gain g = some t) :
    t.achievement_type = g.achievement.trophyAchievementType
    ∧ (g.achievement.trophyAchievementType = "SoloRanking" →
        TrophyData.categorize g =
          g.achievement.trophySoloRankingAchievementType.map
            (fun sub => "SoloRanking - " ++ sub))
    ∧ (g.achievement.trophyAchievementType ≠ "SoloRanking" →
        TrophyData.categorize g = some g.achievement.trophyAchievementType) := by
  refine ⟨?_, ?_, ?_⟩
  · cases hc : sum_trophy_points g.counts with
    | none => simp [TrophyData.from_gain, hc] at h
    | some c =>
      simp [TrophyData.from_gain, hc] at h
      subst h
      rfl
  · intro hcat
    simp [TrophyData.categorize, hcat]
  · intro hcat
    unfold TrophyData.categorize
    split
    · exact absurd (by assumption) hcat
    · rfl

/-- C1 (witness for the amended theorem): evaluated on the concrete
`SoloRanking` example payload. -/
theorem from_gain_achievement_type_witness :
    ({ timestamp := 0
       achievement_type := "SoloRanking"
       count := 1
       data := soloGainExample : TrophyData }).achievement_type
      = soloGainExample.achievement.trophyAchievementType :=
  (from_gain_achievement_type soloGainExample _ (by decide)).1

/-- C2: for every length-9 count vector the derived value is
`∑ i in range 9, counts[i] * 10^i`; unit vectors give `10^i`, and the two
literal vectors from the spec give 1935 and 4000. -/
theorem sum_trophy_points_base10 :
    (∀ counts : List Int, counts.length = 9 →
        sum_trophy_points counts
          = some (∑ i ∈ Finset.range 9, counts.getD i 0 * 10 ^ i))
    ∧ (∀ i, i < 9 → sum_trophy_points (unit_counts i) = some (10 ^ i))
    ∧ sum_trophy_points [5, 13, 18, 0, 0, 0, 0, 0, 0] = some 1935
    ∧ sum_trophy_points [0, 0, 0, 4, 0, 0, 0, 0, 0] = some 4000 := by
  refine ⟨?_, ?_, by decide, by decide⟩
  · intro counts h
    simp only [sum_trophy_points, h]
    norm_num
    rw [show List.range 9 = [0, 1, 2, 3, 4, 5, 6, 7, 8] from rfl]
    simp [Finset.sum_range_succ]
    ring
  · decide

/-- C2 (witness): the general formula and the unit-vector law evaluated at
concrete inputs. -/
theorem sum_trophy_points_base10_witness :
    sum_trophy_points [5, 13, 18, 0, 0, 0, 0, 0, 0]
        = some (∑ i ∈ Finset.range 9,
            ([5, 13, 18, 0, 0, 0, 0, 0, 0] : List Int).getD i 0 * 10 ^ i)
    ∧ sum_trophy_points (unit_counts 3) = some (10 ^ 3) :=
  ⟨sum_trophy_points_base10.1 _ (by decide),
   sum_trophy_points_base10.2.1 3 (by decide)⟩

/-- C3: the derivation fails (returns `none`, modelling the raised
`ValueError`) exactly when the count vector's length is not 9. -/
theorem sum_trophy_points_fails_iff (counts : List Int) :
    sum_trophy_points counts = none ↔ counts.length ≠ 9 := by
  unfold sum_trophy_points
  split
  · simp [*]
  · simp [*]

/-- The serialized form of one record: `dataclasses.asdict` produces a
mapping with exactly the four declared fields. -/
structure TrophyDict where
  timestamp : Int
  achievement_type : String
  count : Int
  data : Gain
deriving DecidableEq, Repr

/-- Embeds `dataclasses.asdict(trophy)` on the write path of `main`. -/
def trophy_asdict (t : TrophyData) : TrophyDict :=
  { timestamp := t.timestamp
    achievement_type := t.achievement_type
    count := t.count
    data := t.data }

/-- Embeds `TrophyData(**trophy)` on the read path of `main`. -/
def trophy_of_dict (d : TrophyDict) : TrophyData :=
  { timestamp := d.timestamp
    achievement_type := d.achievement_type
    count := d.count
    data := d.data }

/-- Embeds the cache write in `main`: serialize every record of every
player (the YAML layer itself is external and faithful). -/
def write_cache (results : List (String × List TrophyData)) :
    List (String × List TrophyDict) :=
  results.map (fun pr => (pr.1, pr.2.map trophy_asdict))

/-- Embeds the cache read in `main`: rebuild every record of every
player. -/
def read_cache (cached : List (String × List TrophyDict)) :
    List (String × List TrophyData) :=
  cached.map (fun pr => (pr.1, pr.2.map trophy_of_dict))

/-- C4: writing the cache and reading it back restores, for every player,
records equal in every field to the originals. -/
theorem cache_round_trip (results : List (String × List TrophyData)) :
    read_cache (write_cache results) = results := by
  simp [read_cache, write_cache, List.map_map, Function.comp_def,
    trophy_of_dict, trophy_asdict]

/-- The sort key used throughout `plot_trophies`:
`sorted(trophies, key=lambda res: res.timestamp)` compares records by
timestamp only. -/
def ts_le (a b : TrophyData) : Bool := a.timestamp ≤ b.timestamp

/-- Embeds Python's `sorted` (a stable sort) with the timestamp key. -/
def sort_chronological (trophies : List TrophyData) : List TrophyData :=
  trophies.mergeSort ts_le

/-- Embeds `np.cumsum` via a running accumulator. -/
def cumsum_from (acc : Int) : List Int → List Int
  | [] => []
  | x :: xs => (acc + x) :: cumsum_from (acc + x) xs

/-- The (x, y) series `plot_cumulative_trophies` draws for one player:
x the sorted timestamps, y `np.cumsum` of the sorted counts. -/
def cumulative_series (trophies : List TrophyData) : List Int × List Int :=
  let chrono := sort_chronological trophies
  (chrono.map TrophyData.timestamp,
   cumsum_from 0 (chrono.map TrophyData.count))

/-- A neutral gain payload used to populate the `data` field of example
records. -/
def plain_gain : Gain :=
  { timestamp := 0
    achievement :=
      { trophyAchievementType := "Race"
        trophySoloRankingAchievementType := none }
    counts := [0, 0, 0, 0, 0, 0, 0, 0, 0] }

/-- An example record with the given timestamp, category and count. -/
def mk_trophy (ts : Int) (cat : String) (c : Int) : TrophyData :=
  { timestamp := ts
    achievement_type := cat
    count := c
    data := plain_gain }

/-- Entry `i` of `cumsum_from acc l` is `acc` plus the sum of the first
`i + 1` elements of `l`. -/
theorem cumsum_from_getElem (l : List Int) : ∀ (acc : Int) (i : Nat),
    i < l.length →
    (cumsum_from acc l)[i]? = some (acc + (l.take (i + 1)).sum) := by
  induction l with
  | nil =>
    intro acc i h
    simp at h
  | cons x xs ih =>
    intro acc i h
    cases i with
    | zero => simp [cumsum_from]
    | succ j =>
      have hj : j < xs.length := by simpa using h
      simp only [cumsum_from, List.getElem?_cons_succ]
      rw [ih (acc + x) j hj, List.take_succ_cons, List.sum_cons]
      congr 1
      ring

/-- C5: the cumulative reducer's y series holds the running prefix sums
of `count` over the timestamp-sorted records; an empty record list gives
an empty series, and counts `[3, 5, 2]` in timestamp order give
`[3, 8, 10]`. -/
theorem cumulative_running_sum :
    (∀ (trophies : List TrophyData) (i : Nat), i < trophies.length →
        (cumulative_series trophies).2[i]?
          = some ((((sort_chronological trophies).map
              TrophyData.count).take (i + 1)).sum))
    ∧ cumulative_series [] = ([], [])
    ∧ (cumulative_series
        [mk_trophy 1 "Race" 3, mk_trophy 2 "Race" 5,
         mk_trophy 3 "Race" 2]).2 = [3, 8, 10] := by
  refine ⟨?_, ?_, ?_⟩
  · intro trophies i h
    have hlen : i < ((sort_chronological trophies).map TrophyData.count).length := by
      simpa [sort_chronological] using h
    have hcs := cumsum_from_getElem
      ((sort_chronological trophies).map TrophyData.count) 0 i hlen
    simpa [cumulative_series] using hcs
  · simp [cumulative_series, sort_chronological, cumsum_from]
  · have hs : sort_chronological
        [mk_trophy 1 "Race" 3, mk_trophy 2 "Race" 5, mk_trophy 3 "Race" 2]
        = [mk_trophy 1 "Race" 3, mk_trophy 2 "Race" 5, mk_trophy 3 "Race" 2] :=
      List.mergeSort_of_sorted (by decide)
    simp only [cumulative_series]
    rw [hs]
    decide

/-- C5 (witness): the prefix-sum law evaluated at index 1 of the concrete
three-record example. -/
theorem cumulative_running_sum_witness :
    (cumulative_series
        [mk_trophy 1 "Race" 3, mk_trophy 2 "Race" 5,
         mk_trophy 3 "Race" 2]).2[1]?
      = some ((((sort_chronological
          [mk_trophy 1 "Race" 3, mk_trophy 2 "Race" 5,
           mk_trophy 3 "Race" 2]).map TrophyData.count).take 2).sum) :=
  cumulative_running_sum.1 _ 1 (by decide)

/-- Embeds `zip(itertools.repeat(tag), player_results)` in `plot_race`. -/
def tag_results (tag : Nat) (trophies : List TrophyData) :
    List (Nat × TrophyData) :=
  trophies.map (fun t => (tag, t))

/-- The merge key of `plot_race` (`key=lambda v: v[1].timestamp`); Python
`heapq.merge` takes from the earlier input stream on ties, exactly as
`List.merge` takes from its first argument when `le` holds. -/
def tagged_le (a b : Nat × TrophyData) : Bool :=
  a.2.timestamp ≤ b.2.timestamp

/-- Embeds the loop of `plot_race`: walk the merged stream, update
`sums[player]`, and record the timestamp and `sums[0] - sums[1]` at every
event. -/
def race_walk : List (Nat × TrophyData) → Int → Int → List (Int × Int)
  | [], _, _ => []
  | (tag, tr) :: rest, s0, s1 =>
    let s0' := if tag = 0 then s0 + tr.count else s0
    let s1' := if tag = 0 then s1 else s1 + tr.count
    (tr.timestamp, s0' - s1') :: race_walk rest s0' s1'

/-- The (timestamp, delta) series `plot_race` draws for the two named
players' chronological record lists. -/
def race_series (p1 p2 : List TrophyData) : List (Int × Int) :=
  race_walk (List.merge (tag_results 0 p1) (tag_results 1 p2) tagged_le) 0 0

/-- The contribution of one merged event to `sums[0] - sums[1]`. -/
def signed_count (p : Nat × TrophyData) : Int :=
  if p.1 = 0 then p.2.count else -p.2.count

/-- Entry `i` of the race walk pairs the `i`-th merged event's timestamp
with the initial delta plus the signed sum of the first `i + 1` events. -/
theorem race_walk_getElem :
    ∀ (m : List (Nat × TrophyData)) (s0 s1 : Int) (i : Nat)
      (h : i < m.length),
    (race_walk m s0 s1)[i]?
      = some ((m.get ⟨i, h⟩).2.timestamp,
          (s0 - s1) + ((m.take (i + 1)).map signed_count).sum) := by
  intro m
  induction m with
  | nil =>
    intro s0 s1 i h
    simp at h
  | cons hd rest ih =>
    intro s0 s1 i h
    obtain ⟨tag, tr⟩ := hd
    cases i with
    | zero =>
      by_cases htag : tag = 0 <;>
        simp [race_walk, signed_count, htag] <;> ring
    | succ j =>
      have hj : j < rest.length := by simpa using h
      simp only [race_walk, List.getElem?_cons_succ]
      rw [ih _ _ j hj]
      simp only [List.take_succ_cons, List.map_cons, List.sum_cons, List.get]
      by_cases htag : tag = 0 <;>
        simp [signed_count, htag] <;> ring_nf

/-- C6: for timestamp-sorted inputs the merged stream is ascending (the
merge is the stable `List.merge`, taking from player 1 on ties), and
every emitted delta equals player 1's running total minus player 2's over
the merged events so far; merging `A=[(t1,5)]`, `B=[(t2,3)]` with
`t1 < t2` yields the delta series `[5, 2]`. -/
theorem race_delta_series :
    (∀ (p1 p2 : List TrophyData),
      p1.Pairwise (fun a b => ts_le a b) →
      p2.Pairwise (fun a b => ts_le a b) →
      (List.merge (tag_results 0 p1) (tag_results 1 p2) tagged_le).Pairwise
          (fun a b => tagged_le a b)
      ∧ ∀ (i : Nat)
          (h : i < (List.merge (tag_results 0 p1) (tag_results 1 p2)
              tagged_le).length),
          (race_series p1 p2)[i]?
            = some
                (((List.merge (tag_results 0 p1) (tag_results 1 p2)
                    tagged_le).get ⟨i, h⟩).2.timestamp,
                 (((List.merge (tag_results 0 p1) (tag_results 1 p2)
                    tagged_le).take (i + 1)).map signed_count).sum))
    ∧ (∀ t1 t2 : Int, t1 < t2 →
        (race_series [mk_trophy t1 "A" 5] [mk_trophy t2 "B" 3]).map
            Prod.snd = [5, 2]) := by
  constructor
  · intro p1 p2 h1 h2
    constructor
    · apply List.sorted_merge
      · intro a b c hab hbc
        simp only [tagged_le, decide_eq_true_eq] at *
        omega
      · intro a b
        simp only [tagged_le]
        rcases le_total a.2.timestamp b.2.timestamp with hab | hab <;> simp [hab]
      · exact (List.pairwise_map).mpr (by simpa [tagged_le, ts_le] using h1)
      · exact (List.pairwise_map).mpr (by simpa [tagged_le, ts_le] using h2)
    · intro i h
      have := race_walk_getElem
        (List.merge (tag_results 0 p1) (tag_results 1 p2) tagged_le) 0 0 i h
      simpa [race_series] using this
  · intro t1 t2 ht
    simp [race_series, tag_results, List.merge, race_walk, mk_trophy,
      tagged_le, ht.le]

/-- C6 (witness): the merge-sortedness and the literal `[5, 2]` delta
series, evaluated on one record per player with `1 < 2`. -/
theorem race_delta_series_witness :
    (List.merge (tag_results 0 [mk_trophy 1 "A" 5])
        (tag_results 1 [mk_trophy 2 "B" 3]) tagged_le).Pairwise
        (fun a b => tagged_le a b)
    ∧ (race_series [mk_trophy 1 "A" 5] [mk_trophy 2 "B" 3]).map
        Prod.snd = [5, 2] :=
  ⟨(race_delta_series.1 [mk_trophy 1 "A" 5] [mk_trophy 2 "B" 3]
      (by decide) (by decide)).1,
   race_delta_series.2 1 2 (by decide)⟩

/-- Embeds the `collections.defaultdict(int)` accumulation loop of
`plot_categorized_trophies`: `totals[trophy.achievement_type] += trophy.count`. -/
def build_totals (trophies : List TrophyData) : String → Int :=
  trophies.foldl
    (fun totals t => fun cat =>
      if cat = t.achievement_type then totals cat + t.count else totals cat)
    (fun _ => 0)

/-- The y series `plot_categorized_trophies` draws for one player: the
records from `start_date` on are accumulated by category, then the fixed
category axis is read off (`[totals[cat] for cat in categories]`). -/
def categorized_series (categories : List String)
    (trophies : List TrophyData) (start_date : Int) : List Int :=
  let after := trophies.filter (fun t => start_date ≤ t.timestamp)
  categories.map (fun cat => build_totals after cat)

/-- The defaultdict fold computes, per category, the plain sum of the
counts of the records of that category. -/
theorem build_totals_eq_sum (trophies : List TrophyData) (cat : String) :
    build_totals trophies cat
      = ((trophies.filter (fun t => t.achievement_type = cat)).map
          TrophyData.count).sum := by
  suffices h : ∀ (init : String → Int),
      trophies.foldl
        (fun totals t => fun c =>
          if c = t.achievement_type then totals c + t.count else totals c)
        init cat
        = init cat + ((trophies.filter
            (fun t => t.achievement_type = cat)).map TrophyData.count).sum by
    simpa using h (fun _ => 0)
  induction trophies with
  | nil => intro init; simp
  | cons t rest ih =>
    intro init
    by_cases hc : t.achievement_type = cat
    · simp only [List.foldl_cons, List.filter_cons]
      rw [ih]
      simp [hc]
      ring
    · simp only [List.foldl_cons, List.filter_cons]
      rw [ih]
      have : ¬ (cat = t.achievement_type) := fun h => hc h.symm
      simp [hc, this]

/-- C7: per listed category, the categorized reducer's entry is the sum
of `count` over exactly the records with `timestamp >= cutoff` of that
category (strictly earlier records contribute nothing), and a listed
category with no qualifying records still appears, with total zero. -/
theorem categorized_totals_cutoff :
    (∀ (categories : List String) (trophies : List TrophyData)
        (start_date : Int),
      categorized_series categories trophies start_date
        = categories.map (fun cat =>
            ((trophies.filter (fun t =>
                start_date ≤ t.timestamp ∧ t.achievement_type = cat)).map
              TrophyData.count).sum))
    ∧ (∀ (categories : List String) (trophies : List TrophyData)
        (start_date : Int) (i : Nat) (cat : String),
        categories[i]? = some cat →
        (∀ t ∈ trophies, start_date ≤ t.timestamp →
            t.achievement_type ≠ cat) →
        (categorized_series categories trophies start_date)[i]?
          = some 0) := by
  have key : ∀ (categories : List String) (trophies : List TrophyData)
      (start_date : Int),
      categorized_series categories trophies start_date
        = categories.map (fun cat =>
            ((trophies.filter (fun t =>
                start_date ≤ t.timestamp ∧ t.achievement_type = cat)).map
              TrophyData.count).sum) := by
    intro categories trophies start_date
    simp only [categorized_series]
    refine List.map_congr_left ?_
    intro cat _
    rw [build_totals_eq_sum]
    congr 1
    congr 1
    rw [List.filter_filter]
    refine List.filter_congr ?_
    intro t _
    by_cases h1 : start_date ≤ t.timestamp <;>
      by_cases h2 : t.achievement_type = cat <;> simp [h1, h2]
  refine ⟨key, ?_⟩
  intro categories trophies start_date i cat hcat hnone
  have hfil : trophies.filter (fun t =>
      start_date ≤ t.timestamp ∧ t.achievement_type = cat) = [] := by
    rw [List.filter_eq_nil_iff]
    intro t ht
    simp only [decide_eq_true_eq, not_and]
    intro hts
    exact hnone t ht hts
  rw [key, List.getElem?_map, hcat, Option.map_some', hfil]
  simp

/-- C7 (witness): one in-window record of another category, one
out-of-window record of the listed category; the listed category's total
is zero. -/
theorem categorized_totals_cutoff_witness :
    (categorized_series ["SoloRanking"]
        [mk_trophy 5 "Race" 7, mk_trophy 1 "SoloRanking" 9] 3)[0]?
      = some 0 :=
  categorized_totals_cutoff.2 ["SoloRanking"]
    [mk_trophy 5 "Race" 7, mk_trophy 1 "SoloRanking" 9] 3 0 "SoloRanking"
    (by decide) (by decide)

/-- One HTTP response in the fetch loop: the `resp.ok` flag and the two
JSON body fields the code reads (`total`, `gains`). -/
structure PageResp where
  ok : Bool
  total : Nat
  gains : List Gain

/-- The errors `get_trophies` can raise: a failed request (the
`RuntimeError`, carrying the response body), or the `ValueError`
propagated from `_sum_trophy_points` while decoding a gain. -/
inductive FetchError where
  | http (total : Nat) (gains : List Gain)
  | badCounts
deriving DecidableEq

/-- Decode one page's `gains` array through `TrophyData.from_gain`;
`none` as soon as any entry raises. -/
def decode_gains : List Gain → Option (List TrophyData)
  | [] => some []
  | g :: gs =>
    match TrophyData.from_gain g, decode_gains gs with
    | some t, some ts => some (t :: ts)
    | _, _ => none

/-- Embeds the `for page in range(0, request_limit)` loop of
`get_trophies`; `fuel` is the number of remaining iterations
(`request_limit - page`).  Returns the accumulated records together with
the number of pages requested. -/
def fetch_pages (pages : Nat → PageResp) :
    Nat → Nat → List TrophyData → Except FetchError (List TrophyData × Nat)
  | 0, page, acc => .ok (acc, page)
  | fuel + 1, page, acc =>
    let resp := pages page
    if resp.ok then
      match decode_gains resp.gains with
      | none => .error .badCounts
      | some ts =>
        let acc' := acc ++ ts
        if acc'.length = resp.total then .ok (acc', page + 1)
        else fetch_pages pages fuel (page + 1) acc'
    else .error (.http resp.total resp.gains)

/-- Embeds `get_trophies` for a given `request_limit` (100 in the code). -/
def get_trophies (pages : Nat → PageResp) (request_limit : Nat) :
    Except FetchError (List TrophyData × Nat) :=
  fetch_pages pages request_limit 0 []

/-- The records decoded from pages `0 .. n-1` in order. -/
def acc_records (recs : Nat → List TrophyData) (n : Nat) : List TrophyData :=
  ((List.range n).map recs).flatten

theorem acc_records_succ (recs : Nat → List TrophyData) (n : Nat) :
    acc_records recs (n + 1) = acc_records recs n ++ recs n := by
  simp [acc_records, List.range_succ]

/-- Loop invariant for the early stop: if the first accumulated-vs-total
match happens at page `k` and there is fuel to reach it, the loop run
from any page `≤ k` returns the records of pages `0 .. k` and the request
counter `k + 1`. -/
theorem fetch_pages_stop (pages : Nat → PageResp)
    (recs : Nat → List TrophyData) (k : Nat)
    (hok : ∀ j, j ≤ k → (pages j).ok = true)
    (hdec : ∀ j, j ≤ k → decode_gains (pages j).gains = some (recs j))
    (hno : ∀ j, j < k → (acc_records recs (j + 1)).length ≠ (pages j).total)
    (hstop : (acc_records recs (k + 1)).length = (pages k).total) :
    ∀ (fuel page : Nat), page ≤ k → k < page + fuel →
      fetch_pages pages fuel page (acc_records recs page)
        = .ok (acc_records recs (k + 1), k + 1) := by
  intro fuel
  induction fuel with
  | zero =>
    intro page hpk hlt
    omega
  | succ f ih =>
    intro page hpk hlt
    have hokp := hok page hpk
    have hdecp := hdec page hpk
    simp only [fetch_pages, hokp, hdecp, if_true]
    rw [← acc_records_succ]
    by_cases hpage : page = k
    · subst hpage
      simp [hstop]
    · have hplt : page < k := by omega
      rw [if_neg (hno page hplt)]
      exact ih (page + 1) (by omega) (by omega)

/-- C8: when every page up to `k` succeeds and decodes, the accumulated
record count first matches the page-reported total at page `k`, and `k`
is under the page cap, the fetch requests exactly pages `0 .. k`
(`k + 1` requests, so no page after the match and only page 0 when
`k = 0`) and returns every decoded record of those pages. -/
theorem get_trophies_stops_at_match (pages : Nat → PageResp)
    (recs : Nat → List TrophyData) (k request_limit : Nat)
    (hok : ∀ j, j ≤ k → (pages j).ok = true)
    (hdec : ∀ j, j ≤ k → decode_gains (pages j).gains = some (recs j))
    (hno : ∀ j, j < k → (acc_records recs (j + 1)).length ≠ (pages j).total)
    (hstop : (acc_records recs (k + 1)).length = (pages k).total)
    (hlim : k < request_limit) :
    get_trophies pages request_limit
      = .ok (acc_records recs (k + 1), k + 1) := by
  have h := fetch_pages_stop pages recs k hok hdec hno hstop request_limit 0
    (Nat.zero_le k) (by omega)
  simpa [get_trophies, acc_records] using h

/-- A provider whose pages all report 2 total gains and carry one gain
each: the accumulated count matches the total after page 1. -/
def pages_two : Nat → PageResp := fun page =>
  if page = 0 then { ok := true, total := 2, gains := [soloGainExample] }
  else { ok := true, total := 2, gains := [plain_gain] }

/-- The decoded records of each `pages_two` page. -/
def recs_two : Nat → List TrophyData := fun page =>
  (decode_gains (pages_two page).gains).getD []

/-- C8 (witness): against `pages_two` with the code's page cap of 100,
the fetch stops after page 1 with both records. -/
theorem get_trophies_stops_at_match_witness :
    get_trophies pages_two 100 = .ok (acc_records recs_two 2, 2) :=
  get_trophies_stops_at_match pages_two recs_two 1 100
    (by decide) (by decide) (by decide) (by decide) (by decide)

/-- Loop invariant for the failure path: with every earlier page
succeeding, decoding, and not triggering the early stop, reaching the
non-successful page `k` aborts with the error carrying its response
body. -/
theorem fetch_pages_http_error (pages : Nat → PageResp)
    (recs : Nat → List TrophyData) (k : Nat)
    (hok : ∀ j, j < k → (pages j).ok = true)
    (hdec : ∀ j, j < k → decode_gains (pages j).gains = some (recs j))
    (hno : ∀ j, j < k → (acc_records recs (j + 1)).length ≠ (pages j).total)
    (hfail : (pages k).ok = false) :
    ∀ (fuel page : Nat), page ≤ k → k < page + fuel →
      fetch_pages pages fuel page (acc_records recs page)
        = .error (.http (pages k).total (pages k).gains) := by
  intro fuel
  induction fuel with
  | zero =>
    intro page hpk hlt
    omega
  | succ f ih =>
    intro page hpk hlt
    by_cases hpage : page = k
    · subst hpage
      simp [fetch_pages, hfail]
    · have hplt : page < k := by omega
      have hokp := hok page hplt
      have hdecp := hdec page hplt
      simp only [fetch_pages, hokp, hdecp, if_true]
      rw [← acc_records_succ]
      rw [if_neg (hno page hplt)]
      exact ih (page + 1) (by omega) (by omega)

/-- If the loop returns a record list, every requested page had a
successful response. -/
theorem fetch_pages_ok_all_requested (pages : Nat → PageResp) :
    ∀ (fuel page : Nat) (acc l : List TrophyData) (n : Nat),
      fetch_pages pages fuel page acc = .ok (l, n) →
      ∀ j, page ≤ j → j < n → (pages j).ok = true := by
  intro fuel
  induction fuel with
  | zero =>
    intro page acc l n h j hpj hjn
    simp only [fetch_pages] at h
    obtain ⟨-, rfl⟩ : l = acc ∧ n = page := by
      cases h
      exact ⟨rfl, rfl⟩
    omega
  | succ f ih =>
    intro page acc l n h j hpj hjn
    by_cases hokp : (pages page).ok
    · cases hdecp : decode_gains (pages page).gains with
      | none => simp [fetch_pages, hokp, hdecp] at h
      | some ts =>
        by_cases hlen : (acc ++ ts).length = (pages page).total
        · simp only [fetch_pages, hokp, hdecp, if_true, hlen, if_pos] at h
          obtain ⟨-, rfl⟩ : l = acc ++ ts ∧ n = page + 1 := by
            cases h
            exact ⟨rfl, rfl⟩
          have : j = page := by omega
          subst this
          exact hokp
        · simp only [fetch_pages, hokp, hdecp, if_true, hlen, if_neg,
            not_false_iff] at h
          by_cases hj : j = page
          · subst hj
            exact hokp
          · exact ih (page + 1) (acc ++ ts) l n h j (by omega) hjn
    · simp [fetch_pages, hokp] at h

/-- C9: reaching a non-successful page aborts the whole fetch with an
error carrying that response's body and no records; and whenever a record
list is returned, every requested page had a successful response. -/
theorem get_trophies_http_abort :
    (∀ (pages : Nat → PageResp) (recs : Nat → List TrophyData)
        (k request_limit : Nat),
      (∀ j, j < k → (pages j).ok = true) →
      (∀ j, j < k → decode_gains (pages j).gains = some (recs j)) →
      (∀ j, j < k → (acc_records recs (j + 1)).length ≠ (pages j).total) →
      (pages k).ok = false →
      k < request_limit →
      get_trophies pages request_limit
        = .error (.http (pages k).total (pages k).gains))
    ∧ (∀ (pages : Nat → PageResp) (request_limit : Nat)
        (l : List TrophyData) (n : Nat),
        get_trophies pages request_limit = .ok (l, n) →
        ∀ j, j < n → (pages j).ok = true) := by
  constructor
  · intro pages recs k request_limit hok hdec hno hfail hlim
    have h := fetch_pages_http_error pages recs k hok hdec hno hfail
      request_limit 0 (Nat.zero_le k) (by omega)
    simpa [get_trophies, acc_records] using h
  · intro pages request_limit l n h j hjn
    exact fetch_pages_ok_all_requested pages request_limit 0 [] l n h j
      (Nat.zero_le j) hjn

/-- A provider whose page 0 succeeds without matching its total and whose
page 1 fails. -/
def pages_fail : Nat → PageResp := fun page =>
  if page = 0 then { ok := true, total := 5, gains := [plain_gain] }
  else { ok := false, total := 7, gains := [] }

/-- C9 (witness): against `pages_fail` the fetch aborts with the failing
page's body and no records; and the successful `pages_two` fetch implies
its requested page 0 was successful. -/
theorem get_trophies_http_abort_witness :
    get_trophies pages_fail 100 = .error (.http 7 [])
    ∧ (pages_two 0).ok = true := by
  constructor
  · have h := get_trophies_http_abort.1 pages_fail
      (fun page => (decode_gains (pages_fail page).gains).getD []) 1 100
      (by decide) (by decide) (by decide) (by decide) (by decide)
    simpa [pages_fail] using h
  · exact get_trophies_http_abort.2 pages_two 100 (acc_records recs_two 2) 2
      (by rfl) 0 (by decide)

/-- C10 (counterexample): two input lists that are permutations of each
other but share a timestamp produce different y series — the stable
re-sort preserves the input order of equal-timestamp records, so their
partial sums differ. -/
theorem cumulative_not_permutation_invariant :
    ([mk_trophy 0 "A" 3, mk_trophy 0 "A" 5] : List TrophyData).Perm
        [mk_trophy 0 "A" 5, mk_trophy 0 "A" 3]
    ∧ cumulative_series [mk_trophy 0 "A" 3, mk_trophy 0 "A" 5]
        ≠ cumulative_series [mk_trophy 0 "A" 5, mk_trophy 0 "A" 3] := by
  constructor
  · exact List.Perm.swap _ _ _
  · intro heq
    have h1 : cumulative_series [mk_trophy 0 "A" 3, mk_trophy 0 "A" 5]
        = ([0, 0], [3, 8]) := by
      have hs : sort_chronological [mk_trophy 0 "A" 3, mk_trophy 0 "A" 5]
          = [mk_trophy 0 "A" 3, mk_trophy 0 "A" 5] :=
        List.mergeSort_of_sorted (by decide)
      simp only [cumulative_series, sort_chronological] at hs ⊢
      rw [hs]
      decide
    have h2 : cumulative_series [mk_trophy 0 "A" 5, mk_trophy 0 "A" 3]
        = ([0, 0], [5, 8]) := by
      have hs : sort_chronological [mk_trophy 0 "A" 5, mk_trophy 0 "A" 3]
          = [mk_trophy 0 "A" 5, mk_trophy 0 "A" 3] :=
        List.mergeSort_of_sorted (by decide)
      simp only [cumulative_series, sort_chronological] at hs ⊢
      rw [hs]
      decide
    rw [h1, h2] at heq
    exact absurd heq (by decide)

/-- `ts_le` is transitive. -/
theorem ts_le_trans (a b c : TrophyData) :
    ts_le a b → ts_le b c → ts_le a c := by
  simp only [ts_le, decide_eq_true_eq]
  omega

/-- `ts_le` is total. -/
theorem ts_le_total (a b : TrophyData) : ts_le a b || ts_le b a := by
  simp only [ts_le]
  rcases le_total a.timestamp b.timestamp with h | h <;> simp [h]

/-- Two sorted permutations of each other with pairwise-distinct
timestamps are equal. -/
theorem sorted_perm_nodup_ts_eq :
    ∀ s1 s2 : List TrophyData, s1.Perm s2 →
      s1.Pairwise (fun a b => ts_le a b) →
      s2.Pairwise (fun a b => ts_le a b) →
      (s1.map TrophyData.timestamp).Nodup →
      s1 = s2 := by
  intro s1
  induction s1 with
  | nil =>
    intro s2 hp _ _ _
    simpa using hp.symm.eq_nil
  | cons a t1 ih =>
    intro s2 hp hs1 hs2 hnd
    cases s2 with
    | nil => simp at hp
    | cons b t2 =>
      have hnd2 : a.timestamp ∉ t1.map TrophyData.timestamp
          ∧ (t1.map TrophyData.timestamp).Nodup := by
        rw [List.map_cons, List.nodup_cons] at hnd
        exact hnd
      have hab : a = b := by
        have hmem_a : a ∈ b :: t2 := hp.mem_iff.mp (by simp)
        have hmem_b : b ∈ a :: t1 := hp.symm.mem_iff.mp (by simp)
        rcases List.mem_cons.mp hmem_a with h | ha2
        · exact h
        rcases List.mem_cons.mp hmem_b with h | hb1
        · exact h.symm
        exfalso
        have h1 : ts_le a b = true := List.rel_of_pairwise_cons hs1 hb1
        have h2 : ts_le b a = true := List.rel_of_pairwise_cons hs2 ha2
        have hts : b.timestamp = a.timestamp := by
          simp only [ts_le, decide_eq_true_eq] at h1 h2
          omega
        have hmem_ts : a.timestamp ∈ t1.map TrophyData.timestamp :=
          List.mem_map.mpr ⟨b, hb1, hts⟩
        exact hnd2.1 hmem_ts
      subst hab
      have htail := ih t2 hp.cons_inv hs1.tail hs2.tail hnd2.2
      rw [htail]

/-- C10 (amended): the cumulative reducer's output is invariant under
permutations of the input record list provided the records' timestamps
are pairwise distinct (with a shared timestamp the stable re-sort keeps
the input order, and the counterexample above applies). -/
theorem cumulative_permutation_invariant (l1 l2 : List TrophyData)
    (hperm : l1.Perm l2)
    (hnd : (l1.map TrophyData.timestamp).Nodup) :
    cumulative_series l1 = cumulative_series l2 := by
  have hs : sort_chronological l1 = sort_chronological l2 := by
    apply sorted_perm_nodup_ts_eq
    · exact ((List.mergeSort_perm l1 ts_le).trans hperm).trans
        (List.mergeSort_perm l2 ts_le).symm
    · exact List.sorted_mergeSort ts_le_trans ts_le_total l1
    · exact List.sorted_mergeSort ts_le_trans ts_le_total l2
    · have hp : (sort_chronological l1).map TrophyData.timestamp |>.Perm
          (l1.map TrophyData.timestamp) :=
        (List.mergeSort_perm l1 ts_le).map TrophyData.timestamp
      exact hp.nodup_iff.mpr hnd
  simp [cumulative_series, hs]

/-- C10 (witness for the amended theorem): two permutations of a
two-record list with distinct timestamps yield the same series. -/
theorem cumulative_permutation_invariant_witness :
    cumulative_series [mk_trophy 2 "B" 5, mk_trophy 1 "A" 3]
      = cumulative_series [mk_trophy 1 "A" 3, mk_trophy 2 "B" 5] :=
  cumulative_permutation_invariant _ _ (by decide) (by decide)
